import Mathlib

/-
Verification of the email-scheduler backend (src/server.js).

Shallow embedding notes.
* An `EmailJob` is the stored record created by the POST /schedule handler;
  all its fields are strings exactly as in the JSON file, including `status`
  (the code compares `status === 'pending'` on raw strings).
* The persisted file (data/emails.json) is modelled by `FileState`:
  `absent` (no file yet), `corrupt` (file exists but is not parseable JSON),
  `content l` (file holds the serialization of the job list `l`; the
  serialization layer itself is modelled by `encodeEmails`/`decodeEmails`
  over a JSON value tree and proven lossless), and `inaccessible` (the
  storage layer itself fails, e.g. the data directory cannot be created, so
  `loadEmails`/`saveEmails` throw).  `loadEmails` returns `none` exactly when
  the underlying I/O throws out of the function (only the `inaccessible`
  case: every read/parse failure inside the try block is caught and mapped
  to the empty list, as in the source's `catch { return [] }`).
* Host-runtime collaborators are parameters: `parseDate` stands for
  JavaScript's `new Date(string)` (returning `none` when the result is an
  Invalid Date, i.e. `isNaN(d.getTime())`), `formatDate` for
  `Date.prototype.toISOString` on the parsed value, and `freshId` for one
  `uuidv4()` draw.  Times are epoch milliseconds as integers, matching the
  numeric comparison semantics of JS `Date` relational operators (an
  Invalid Date compares false, which the `Option` modelling reproduces).
* Each handler / tick takes a single `now : Int`, the current time at the
  processing instant; in particular one tick of `checkScheduledEmails`
  captures `now` exactly once, as the source does (`const now = new Date()`).
* Effects are explicit: results carry the new `FileState` and a count of
  durable writes (`saveEmails` calls that completed), and the tick also
  returns the list of jobs passed to the delivery collaborator `sendEmail`,
  in invocation order.
-/

structure EmailJob where
  id : String
  recipientEmail : String
  subject : String
  body : String
  scheduledTime : String
  status : String
deriving DecidableEq, Repr

inductive FileState where
  | absent : FileState
  | corrupt : FileState
  | content : List EmailJob → FileState
  | inaccessible : FileState
deriving DecidableEq, Repr

/-- Model of `loadEmails` (src/server.js lines 28-37): returns the parsed
file content; a missing or unparseable file is caught and mapped to `[]`;
`none` models the call itself throwing (storage layer inaccessible). -/
def loadEmails : FileState → Option (List EmailJob)
  | FileState.absent => some []
  | FileState.corrupt => some []
  | FileState.content l => some l
  | FileState.inaccessible => none

/-- Model of `saveEmails` (src/server.js lines 40-43): overwrites the whole
file with the serialization of `emails`; `none` models the write throwing. -/
def saveEmails (emails : List EmailJob) : FileState → Option FileState
  | FileState.inaccessible => none
  | _ => some (FileState.content emails)

/-- Model of the delivery stub `sendEmail` (src/server.js lines 46-56):
logs and returns `{ ...email, status: 'sent' }`. -/
def sendEmail (email : EmailJob) : EmailJob :=
  { email with status := "sent" }

/-- Whitespace class of the JS regex `\s` (ASCII part; the Unicode spaces it
also covers play no role in any claim). -/
def jsWhitespace (c : Char) : Bool :=
  c = ' ' || c = '\t' || c = '\n' || c = '\r' || c = '\x0b' || c = '\x0c'

/-- Splitting a character list on a separator (groups between occurrences of
`sep`, in order, empty groups kept). -/
def splitOnChar (sep : Char) : List Char → List (List Char)
  | [] => [[]]
  | c :: rest =>
    match splitOnChar sep rest with
    | [] => if c = sep then [[], [c]] else [[c]]
    | g :: gs => if c = sep then [] :: g :: gs else (c :: g) :: gs

/-- Model of `emailRegex.test(recipientEmail)` with
`emailRegex = /^[^\s@]+@[^\s@]+\.[^\s@]+$/` (src/server.js line 69): the
string matches iff it splits as `local@domain` — exactly one `@`, since no
character class of the pattern admits `@` — with both parts nonempty and
free of whitespace, and `domain` contains a dot that is neither its first
nor its last character (backtracking lets `[^\s@]+` absorb any other
dots). -/
def emailRegexTest (s : String) : Bool :=
  match splitOnChar '@' s.toList with
  | [lp, dp] =>
      !lp.isEmpty && !dp.isEmpty &&
      lp.all (fun c => !jsWhitespace c) &&
      dp.all (fun c => !jsWhitespace c) &&
      ((dp.drop 1).dropLast).contains '.'
  | _ => false

structure ScheduleRequest where
  recipientEmail : String
  subject : String
  body : String
  scheduledTime : String
deriving DecidableEq, Repr

structure ScheduleResponse where
  status : Nat
  message : String
  email : Option EmailJob
deriving DecidableEq, Repr

structure PostResult where
  response : ScheduleResponse
  file : FileState
  writes : Nat
deriving DecidableEq, Repr

/-- Model of the POST /schedule handler (src/server.js lines 59-104).
Fields carry `""` for a missing or empty (falsy) request-body field.  The
four validations run in source order, first failure winning; on success the
job is built with a fresh id, canonicalized `scheduledTime`
(`scheduledDate.toISOString()`) and `status = "pending"`, appended to the
loaded snapshot and saved (one durable write).  A throw from the storage
layer is caught by the outer try/catch and answered with 500. -/
def postSchedule (parseDate : String → Option Int) (formatDate : Int → String)
    (freshId : String) (now : Int) (req : ScheduleRequest)
    (file : FileState) : PostResult :=
  if req.recipientEmail.isEmpty || req.subject.isEmpty || req.body.isEmpty
      || req.scheduledTime.isEmpty then
    ⟨⟨400, "Missing required fields", none⟩, file, 0⟩
  else if !emailRegexTest req.recipientEmail then
    ⟨⟨400, "Invalid email format", none⟩, file, 0⟩
  else
    match parseDate req.scheduledTime with
    | none => ⟨⟨400, "Invalid date format", none⟩, file, 0⟩
    | some t =>
      if t < now then
        ⟨⟨400, "Scheduled time must be in the future", none⟩, file, 0⟩
      else
        let email : EmailJob :=
          ⟨freshId, req.recipientEmail, req.subject, req.body,
            formatDate t, "pending"⟩
        match loadEmails file with
        | none => ⟨⟨500, "Internal server error", none⟩, file, 0⟩
        | some emails =>
          match saveEmails (emails ++ [email]) file with
          | none => ⟨⟨500, "Internal server error", none⟩, file, 0⟩
          | some f2 =>
            ⟨⟨201, "Email scheduled successfully", some email⟩, f2, 1⟩

inductive GetResponse where
  | ok : List EmailJob → GetResponse
  | serverError : String → GetResponse
deriving DecidableEq, Repr

/-- Model of the GET /scheduled handler (src/server.js lines 107-115):
returns the loaded snapshot, or 500 if the load throws. -/
def getScheduled (file : FileState) : GetResponse :=
  match loadEmails file with
  | some emails => GetResponse.ok emails
  | none => GetResponse.serverError "Internal server error"

/-- A job is due for delivery in a tick (src/server.js lines 125-129):
`status === 'pending'` and `new Date(scheduledTime) <= now`; an unparseable
`scheduledTime` (Invalid Date, NaN) compares false. -/
def isDue (parseDate : String → Option Int) (now : Int) (e : EmailJob) : Bool :=
  decide (e.status = "pending") &&
    match parseDate e.scheduledTime with
    | some t => decide (t ≤ now)
    | none => false

/-- The per-job scan of the tick loop (src/server.js lines 124-133), made
explicit: returns the updated job list together with the list of jobs
passed to `sendEmail`, in loop order. -/
def tickScan (parseDate : String → Option Int) (now : Int) :
    List EmailJob → List EmailJob × List EmailJob
  | [] => ([], [])
  | e :: rest =>
    let r := tickScan parseDate now rest
    if isDue parseDate now e then (sendEmail e :: r.1, e :: r.2)
    else (e :: r.1, r.2)

/-- What the tick loop does to one job: a due job is replaced by
`sendEmail`'s result, any other job is untouched. -/
def stepJob (parseDate : String → Option Int) (now : Int) (e : EmailJob) :
    EmailJob :=
  if isDue parseDate now e then sendEmail e else e

structure TickResult where
  file : FileState
  delivered : List EmailJob
  writes : Nat
deriving DecidableEq, Repr

/-- Model of one tick of `checkScheduledEmails` (src/server.js lines
118-143): load the snapshot, capture `now` once, deliver each due pending
job and mark it sent in place, and save the whole snapshot iff the
`updated` flag was set (iff at least one job was delivered).  Any throw is
caught at tick level, abandoning the cycle with the file unchanged. -/
def checkScheduledEmails (parseDate : String → Option Int) (now : Int)
    (file : FileState) : TickResult :=
  match loadEmails file with
  | none => ⟨file, [], 0⟩
  | some emails =>
    let r := tickScan parseDate now emails
    if r.2.isEmpty then ⟨file, r.2, 0⟩
    else
      match saveEmails r.1 file with
      | none => ⟨file, r.2, 0⟩
      | some f2 => ⟨f2, r.2, 1⟩

/-- The job collection an operation observes in a given file state: what
`loadEmails` hands to the code when it does not throw. -/
def observed (file : FileState) : List EmailJob :=
  (loadEmails file).getD []

/-- One externally triggered operation of the system: a POST /schedule
request (with its uuid draw and processing time), a GET /scheduled request,
or one scheduler tick. -/
inductive Op where
  | schedule (freshId : String) (now : Int) (req : ScheduleRequest) : Op
  | listAll : Op
  | tick (now : Int) : Op

/-- Effect of one operation on the persisted file. -/
def applyOp (parseDate : String → Option Int) (formatDate : Int → String)
    (file : FileState) : Op → FileState
  | Op.schedule fid now req =>
      (postSchedule parseDate formatDate fid now req file).file
  | Op.listAll => file
  | Op.tick now => (checkScheduledEmails parseDate now file).file

/-- Per-job evolution relation: the identifying and content fields are
immutable, and the status either stays put or makes the one legal
transition pending → sent. -/
def jobEvolves (e e2 : EmailJob) : Prop :=
  e2.id = e.id ∧ e2.recipientEmail = e.recipientEmail ∧
  e2.subject = e.subject ∧ e2.body = e.body ∧
  e2.scheduledTime = e.scheduledTime ∧
  (e2.status = e.status ∨ (e.status = "pending" ∧ e2.status = "sent"))

instance (e e2 : EmailJob) : Decidable (jobEvolves e e2) := by
  unfold jobEvolves; infer_instance

/-- Collection evolution: no job is ever removed — the old collection
survives, job by job in place (each evolving per `jobEvolves`), and new
jobs appear only as an appended suffix. -/
def collEvolves (l l2 : List EmailJob) : Prop :=
  l.length ≤ l2.length ∧ List.Forall₂ jobEvolves l (l2.take l.length)

/-- Every stored job's status is one of the two legal states. -/
def statusOK (l : List EmailJob) : Prop :=
  ∀ e ∈ l, e.status = "pending" ∨ e.status = "sent"

/- JSON value trees, restricted to the shapes this program writes: the file
always holds `JSON.stringify` of an array of six-string-field objects.
`JSON.parse ∘ JSON.stringify` is the identity on value trees (a property of
the host runtime), so losslessness of the persistence round-trip reduces to
the encode/decode round-trip on trees proven below. -/
inductive JVal where
  | str : String → JVal
  | arr : List JVal → JVal
  | obj : List (String × JVal) → JVal

/-- The JSON object `JSON.stringify` produces for one job. -/
def encodeJob (e : EmailJob) : JVal :=
  JVal.obj [("id", JVal.str e.id),
            ("recipientEmail", JVal.str e.recipientEmail),
            ("subject", JVal.str e.subject),
            ("body", JVal.str e.body),
            ("scheduledTime", JVal.str e.scheduledTime),
            ("status", JVal.str e.status)]

/-- The JSON array the file holds after `saveEmails emails`. -/
def encodeEmails (emails : List EmailJob) : JVal :=
  JVal.arr (emails.map encodeJob)

/-- Field access on a parsed JSON object, expecting a string. -/
def getStrField (fields : List (String × JVal)) (k : String) : Option String :=
  match fields.lookup k with
  | some (JVal.str s) => some s
  | _ => none

/-- Reading one job back out of a parsed JSON value. -/
def decodeJob : JVal → Option EmailJob
  | JVal.obj fields =>
    match getStrField fields "id", getStrField fields "recipientEmail",
        getStrField fields "subject", getStrField fields "body",
        getStrField fields "scheduledTime", getStrField fields "status" with
    | some i, some r, some s, some b, some t, some st =>
        some ⟨i, r, s, b, t, st⟩
    | _, _, _, _, _, _ => none
  | _ => none

/-- Reading a list of jobs out of the elements of a parsed JSON array. -/
def decodeJobs : List JVal → Option (List EmailJob)
  | [] => some []
  | v :: vs =>
    match decodeJob v, decodeJobs vs with
    | some e, some es => some (e :: es)
    | _, _ => none

/-- Reading the whole collection back out of the parsed file. -/
def decodeEmails : JVal → Option (List EmailJob)
  | JVal.arr l => decodeJobs l
  | _ => none

/- Concrete fixtures used by witness and counterexample theorems: a
table-based stand-in for the host date parser/formatter pair and three
stored jobs. -/

def pdFix : String → Option Int := fun s =>
  if s = "T0" then some 0 else if s = "T5" then some 5
  else if s = "T6" then some 6 else none

def fdFix : Int → String := fun t =>
  if t = 0 then "T0" else if t = 5 then "T5"
  else if t = 6 then "T6" else "T9"

def jobPastPending : EmailJob := ⟨"id-a", "a@b.com", "S1", "B1", "T0", "pending"⟩

def jobFuturePending : EmailJob := ⟨"id-b", "c@d.org", "S2", "B2", "T6", "pending"⟩

def jobSent : EmailJob := ⟨"id-c", "e@f.net", "S3", "B3", "T0", "sent"⟩

def fileFix : FileState :=
  FileState.content [jobPastPending, jobFuturePending, jobSent]

/- Helper lemmas about the store and the tick scan. -/

theorem saveEmails_of_loadEmails (file : FileState) (l m : List EmailJob)
    (h : loadEmails file = some l) :
    saveEmails m file = some (FileState.content m) := by
  cases file <;> simp [loadEmails, saveEmails] at h ⊢

theorem tickScan_eq (pd : String → Option Int) (now : Int)
    (l : List EmailJob) :
    tickScan pd now l = (l.map (stepJob pd now), l.filter (isDue pd now)) := by
  induction l with
  | nil => rfl
  | cons e rest ih =>
    simp only [tickScan, ih, List.map_cons, List.filter_cons, stepJob]
    by_cases h : isDue pd now e
    · simp [h]
    · simp [h]

theorem map_stepJob_of_no_due (pd : String → Option Int) (now : Int)
    (l : List EmailJob) (h : l.filter (isDue pd now) = []) :
    l.map (stepJob pd now) = l := by
  induction l with
  | nil => rfl
  | cons e rest ih =>
    rw [List.filter_cons] at h
    by_cases hd : isDue pd now e
    · simp [hd] at h
    · simp only [hd] at h
      simp [List.map_cons, stepJob, hd, ih h]

theorem isDue_stepJob (pd : String → Option Int) (now : Int) (e : EmailJob) :
    isDue pd now (stepJob pd now e) = false := by
  unfold stepJob
  cases h : isDue pd now e
  · simp [h]
  · simp only [h, if_true]
    unfold isDue sendEmail
    simp

theorem all_due_step (pd : String → Option Int) (now : Int)
    (l : List EmailJob) :
    ((l.filter (isDue pd now)).all
      (fun e => decide (stepJob pd now e = sendEmail e))) = true := by
  rw [List.all_eq_true]
  intro e he
  rw [List.mem_filter] at he
  simp [stepJob, he.2]

theorem all_nondue_step (pd : String → Option Int) (now : Int)
    (l : List EmailJob) :
    ((l.filter (fun e => !isDue pd now e)).all
      (fun e => decide (stepJob pd now e = e))) = true := by
  rw [List.all_eq_true]
  intro e he
  rw [List.mem_filter] at he
  have hf : isDue pd now e = false := by
    cases hc : isDue pd now e
    · rfl
    · rw [hc] at he
      simp at he
  simp [stepJob, hf]

/-- Claim C2: one Scheduler Loop tick captures the current time exactly once
(`now` is a single parameter of `checkScheduledEmails`, read once per tick),
invokes the delivery collaborator exactly once for each job with status
pending and scheduledTime at or before the captured time — the delivered
list is exactly the loaded snapshot filtered by `isDue`, in scan order —
sets exactly those jobs' status to sent in the resulting collection, and
leaves every other job (future-scheduled or already sent) unchanged. -/
theorem tick_delivers_due_once
    (pd : String → Option Int) (now : Int) (file : FileState)
    (emails : List EmailJob) (h : loadEmails file = some emails) :
    (checkScheduledEmails pd now file).delivered = emails.filter (isDue pd now)
    ∧ observed (checkScheduledEmails pd now file).file
        = emails.map (stepJob pd now)
    ∧ ((emails.filter (isDue pd now)).all
        (fun e => decide (stepJob pd now e = sendEmail e))) = true
    ∧ ((emails.filter (fun e => !isDue pd now e)).all
        (fun e => decide (stepJob pd now e = e))) = true := by
  have hsave := saveEmails_of_loadEmails file emails
    (emails.map (stepJob pd now)) h
  constructor
  · simp only [checkScheduledEmails, h, tickScan_eq]
    cases hf : emails.filter (isDue pd now) with
    | nil => simp [hf]
    | cons d ds => simp [hf, hsave]
  constructor
  · simp only [checkScheduledEmails, h, tickScan_eq]
    cases hf : emails.filter (isDue pd now) with
    | nil =>
      rw [map_stepJob_of_no_due pd now emails hf]
      simp [hf, observed, h]
    | cons d ds =>
      simp only [hf, List.isEmpty_cons, if_false, hsave]
      rfl
  exact ⟨all_due_step pd now emails, all_nondue_step pd now emails⟩

/-- Concrete witness for `tick_delivers_due_once`: one tick at time 5 over a
snapshot holding a past-due pending job, a future pending job and an
already-sent job. -/
theorem tick_delivers_due_once_witness :
    (checkScheduledEmails pdFix 5 fileFix).delivered
        = [jobPastPending, jobFuturePending, jobSent].filter (isDue pdFix 5)
    ∧ observed (checkScheduledEmails pdFix 5 fileFix).file
        = [jobPastPending, jobFuturePending, jobSent].map (stepJob pdFix 5)
    ∧ (([jobPastPending, jobFuturePending, jobSent].filter (isDue pdFix 5)).all
        (fun e => decide (stepJob pdFix 5 e = sendEmail e))) = true
    ∧ (([jobPastPending, jobFuturePending, jobSent].filter
          (fun e => !isDue pdFix 5 e)).all
        (fun e => decide (stepJob pdFix 5 e = e))) = true :=
  tick_delivers_due_once pdFix 5 fileFix
    [jobPastPending, jobFuturePending, jobSent] rfl

theorem filter_isDue_map_stepJob (pd : String → Option Int) (now : Int)
    (l : List EmailJob) :
    (l.map (stepJob pd now)).filter (isDue pd now) = [] := by
  induction l with
  | nil => rfl
  | cons e rest ih =>
    rw [List.map_cons, List.filter_cons, isDue_stepJob]
    simpa using ih

theorem all_filter_isDue_pending (pd : String → Option Int) (now : Int)
    (l : List EmailJob) :
    ((l.filter (isDue pd now)).all
      (fun e => decide (e.status = "pending"))) = true := by
  rw [List.all_eq_true]
  intro e he
  rw [List.mem_filter] at he
  have hd := he.2
  unfold isDue at hd
  rw [Bool.and_eq_true] at hd
  simpa using hd.1

/-- Claim C5: the delivery collaborator is only ever invoked on jobs whose
status is still pending — an already-sent job is never delivered again —
and a second tick at the same time on the file a tick produced delivers
nothing, performs no write, and leaves the file identical: the tick is
idempotent on its fixed points. -/
theorem tick_idempotent (pd : String → Option Int) (now : Int)
    (file : FileState) :
    ((checkScheduledEmails pd now file).delivered.all
      (fun e => decide (e.status = "pending"))) = true
    ∧ checkScheduledEmails pd now (checkScheduledEmails pd now file).file
        = ⟨(checkScheduledEmails pd now file).file, [], 0⟩ := by
  cases hfile : loadEmails file with
  | none =>
    constructor
    · simp [checkScheduledEmails, hfile]
    · simp [checkScheduledEmails, hfile]
  | some emails =>
    have hsave := saveEmails_of_loadEmails file emails
      (emails.map (stepJob pd now)) hfile
    constructor
    · simp only [checkScheduledEmails, hfile, tickScan_eq]
      cases hf : emails.filter (isDue pd now) with
      | nil => simp [hf]
      | cons d ds =>
        simp only [hf, List.isEmpty_cons, if_false, hsave]
        rw [← hf]
        exact all_filter_isDue_pending pd now emails
    · simp only [checkScheduledEmails, hfile, tickScan_eq]
      cases hf : emails.filter (isDue pd now) with
      | nil =>
        simp only [hf, List.isEmpty_nil, if_true]
        simp [checkScheduledEmails, hfile, tickScan_eq, hf]
      | cons d ds =>
        simp only [hf, List.isEmpty_cons, if_false, hsave]
        simp [checkScheduledEmails, loadEmails, tickScan_eq,
          filter_isDue_map_stepJob]

theorem map_eq_self_forall (f : EmailJob → EmailJob) (l : List EmailJob)
    (h : l.map f = l) : ∀ e ∈ l, f e = e := by
  induction l with
  | nil =>
    intro e he
    cases he
  | cons a t ih =>
    simp only [List.map_cons, List.cons.injEq] at h
    intro e he
    rcases List.mem_cons.mp he with rfl | hm
    · exact h.1
    · exact ih h.2 e hm

theorem map_stepJob_ne_iff (pd : String → Option Int) (now : Int)
    (l : List EmailJob) :
    l.map (stepJob pd now) ≠ l ↔ l.filter (isDue pd now) ≠ [] := by
  constructor
  · intro hne hf
    exact hne (map_stepJob_of_no_due pd now l hf)
  · intro hf hmap
    apply hf
    rw [List.filter_eq_nil_iff]
    intro e he hd
    have heq := map_eq_self_forall (stepJob pd now) l hmap e he
    rw [stepJob, if_pos hd] at heq
    have : e.status = "sent" := by
      rw [← heq]
      rfl
    have hp : e.status = "pending" := by
      unfold isDue at hd
      rw [Bool.and_eq_true] at hd
      simpa using hd.1
    rw [hp] at this
    exact absurd this (by decide)

/-- Claim C6: a tick performs a durable write iff at least one job changed
state during the scan — the write count is 1 exactly when mapping the scan
step over the snapshot changes it, and otherwise it is 0 and the persisted
file is left identical (the file after the tick is the old file when
nothing changed, and the rewritten snapshot when something did). -/
theorem tick_saves_iff_changed (pd : String → Option Int) (now : Int)
    (file : FileState) (emails : List EmailJob)
    (h : loadEmails file = some emails) :
    (checkScheduledEmails pd now file).writes
        = (if emails.map (stepJob pd now) = emails then 0 else 1)
    ∧ (checkScheduledEmails pd now file).file
        = (if emails.map (stepJob pd now) = emails then file
           else FileState.content (emails.map (stepJob pd now))) := by
  have hsave := saveEmails_of_loadEmails file emails
    (emails.map (stepJob pd now)) h
  cases hf : emails.filter (isDue pd now) with
  | nil =>
    have hmap : emails.map (stepJob pd now) = emails :=
      map_stepJob_of_no_due pd now emails hf
    constructor
    · simp [checkScheduledEmails, h, tickScan_eq, hf, hmap]
    · simp [checkScheduledEmails, h, tickScan_eq, hf, hmap]
  | cons d ds =>
    have hne : emails.map (stepJob pd now) ≠ emails := by
      rw [map_stepJob_ne_iff, hf]
      intro hc
      cases hc
    constructor
    · simp [checkScheduledEmails, h, tickScan_eq, hf, hsave, hne]
    · simp [checkScheduledEmails, h, tickScan_eq, hf, hsave, hne]

/-- Concrete witness for `tick_saves_iff_changed`: a tick at time 5 over a
snapshot with one due job writes once and stores the updated snapshot. -/
theorem tick_saves_iff_changed_witness :
    (checkScheduledEmails pdFix 5 fileFix).writes
        = (if [jobPastPending, jobFuturePending, jobSent].map (stepJob pdFix 5)
              = [jobPastPending, jobFuturePending, jobSent] then 0 else 1)
    ∧ (checkScheduledEmails pdFix 5 fileFix).file
        = (if [jobPastPending, jobFuturePending, jobSent].map (stepJob pdFix 5)
              = [jobPastPending, jobFuturePending, jobSent] then fileFix
           else FileState.content
             ([jobPastPending, jobFuturePending, jobSent].map (stepJob pdFix 5))) :=
  tick_saves_iff_changed pdFix 5 fileFix
    [jobPastPending, jobFuturePending, jobSent] rfl

/-- Counterexample to claim C1 as stated: a request whose first three
validations pass and whose parsed scheduledTime equals the current time
(both 5) is accepted with 201 and persisted — the code's check
`scheduledDate < new Date()` is strict, so an exactly-now scheduledTime is
NOT rejected, contradicting "strictly later ... otherwise 400". -/
theorem schedule_accepts_equal_now :
    postSchedule pdFix fdFix "id-x1" 5 ⟨"a@b.com", "Hi", "Test", "T5"⟩
        FileState.absent
      = ⟨⟨201, "Email scheduled successfully",
            some ⟨"id-x1", "a@b.com", "Hi", "Test", "T5", "pending"⟩⟩,
          FileState.content [⟨"id-x1", "a@b.com", "Hi", "Test", "T5", "pending"⟩],
          1⟩ := by
  decide

/-- Claim C1 (amended): for every schedule request whose first three
validations pass, the handler rejects with 400
"Scheduled time must be in the future" exactly the requests whose parsed
scheduledTime is strictly earlier than the current time at the
request-processing instant; a parsed time at or after the current instant
(including exactly equal) is accepted with 201. -/
theorem schedule_rejects_only_strict_past
    (pd : String → Option Int) (fd : Int → String) (fid : String) (now : Int)
    (req : ScheduleRequest) (file : FileState) (t : Int)
    (h1 : req.recipientEmail.isEmpty = false)
    (h2 : req.subject.isEmpty = false)
    (h3 : req.body.isEmpty = false)
    (h4 : req.scheduledTime.isEmpty = false)
    (h5 : emailRegexTest req.recipientEmail = true)
    (h6 : pd req.scheduledTime = some t)
    (h7 : file ≠ FileState.inaccessible) :
    (t < now →
      postSchedule pd fd fid now req file
        = ⟨⟨400, "Scheduled time must be in the future", none⟩, file, 0⟩)
    ∧ (now ≤ t →
      (postSchedule pd fd fid now req file).response.status = 201) := by
  constructor
  · intro hlt
    simp [postSchedule, h1, h2, h3, h4, h5, h6, hlt]
  · intro hge
    have hnlt : ¬ t < now := not_lt.mpr hge
    cases file with
    | absent => simp [postSchedule, h1, h2, h3, h4, h5, h6, hnlt,
        loadEmails, saveEmails]
    | corrupt => simp [postSchedule, h1, h2, h3, h4, h5, h6, hnlt,
        loadEmails, saveEmails]
    | content l => simp [postSchedule, h1, h2, h3, h4, h5, h6, hnlt,
        loadEmails, saveEmails]
    | inaccessible => exact absurd rfl h7

/-- Concrete witness for `schedule_rejects_only_strict_past`: a strictly
past time (0 at now 5) is rejected with the stated message, and a strictly
future time (6 at now 5) is accepted with 201. -/
theorem schedule_rejects_only_strict_past_witness :
    postSchedule pdFix fdFix "id-x2" 5 ⟨"c@d.org", "S", "B", "T0"⟩
        FileState.absent
      = ⟨⟨400, "Scheduled time must be in the future", none⟩,
          FileState.absent, 0⟩
    ∧ (postSchedule pdFix fdFix "id-x3" 5 ⟨"c@d.org", "S", "B", "T6"⟩
        FileState.absent).response.status = 201 :=
  ⟨(schedule_rejects_only_strict_past pdFix fdFix "id-x2" 5
      ⟨"c@d.org", "S", "B", "T0"⟩ FileState.absent 0 (by decide) (by decide)
      (by decide) (by decide) (by decide) (by decide) (by decide)).1
    (by decide),
   (schedule_rejects_only_strict_past pdFix fdFix "id-x3" 5
      ⟨"c@d.org", "S", "B", "T6"⟩ FileState.absent 6 (by decide) (by decide)
      (by decide) (by decide) (by decide) (by decide) (by decide)).2
    (by decide)⟩

/-- Counterexample to claim C3 as stated: C3 requires a 400 response and an
unchanged collection whenever "the parsed time is not in the future", but a
request whose parsed time equals the current time (6 = now) — not in the
future — is accepted with 201 and persisted (collection grows). -/
theorem schedule_equal_now_persists :
    postSchedule pdFix fdFix "id-x4" 6 ⟨"x@y.io", "S3c", "B3c", "T6"⟩
        FileState.absent
      = ⟨⟨201, "Email scheduled successfully",
            some ⟨"id-x4", "x@y.io", "S3c", "B3c", "T6", "pending"⟩⟩,
          FileState.content [⟨"id-x4", "x@y.io", "S3c", "B3c", "T6", "pending"⟩],
          1⟩ := by
  decide

/-- Claim C3 (amended): the four validation rules run in the stated order
with first failure winning — missing/empty field, email shape, unparseable
scheduledTime, then the time rule — each answering 400 with its own
message, persisting nothing and leaving the stored file unchanged; the
fourth rule, however, fires only when the parsed time is strictly earlier
than the current time (a parsed time equal to now passes it). -/
theorem schedule_validation_first_failure
    (pd : String → Option Int) (fd : Int → String) (fid : String) (now : Int)
    (req : ScheduleRequest) (file : FileState) :
    ((req.recipientEmail.isEmpty || req.subject.isEmpty || req.body.isEmpty
        || req.scheduledTime.isEmpty) = true →
      postSchedule pd fd fid now req file
        = ⟨⟨400, "Missing required fields", none⟩, file, 0⟩)
    ∧ ((req.recipientEmail.isEmpty || req.subject.isEmpty || req.body.isEmpty
        || req.scheduledTime.isEmpty) = false →
      emailRegexTest req.recipientEmail = false →
      postSchedule pd fd fid now req file
        = ⟨⟨400, "Invalid email format", none⟩, file, 0⟩)
    ∧ ((req.recipientEmail.isEmpty || req.subject.isEmpty || req.body.isEmpty
        || req.scheduledTime.isEmpty) = false →
      emailRegexTest req.recipientEmail = true →
      pd req.scheduledTime = none →
      postSchedule pd fd fid now req file
        = ⟨⟨400, "Invalid date format", none⟩, file, 0⟩)
    ∧ (∀ t : Int,
      (req.recipientEmail.isEmpty || req.subject.isEmpty || req.body.isEmpty
        || req.scheduledTime.isEmpty) = false →
      emailRegexTest req.recipientEmail = true →
      pd req.scheduledTime = some t →
      t < now →
      postSchedule pd fd fid now req file
        = ⟨⟨400, "Scheduled time must be in the future", none⟩, file, 0⟩) := by
  refine ⟨?_, ?_, ?_, ?_⟩
  · intro hm
    simp [postSchedule, hm]
  · intro hm hr
    simp [postSchedule, hm, hr]
  · intro hm hr hp
    simp [postSchedule, hm, hr, hp]
  · intro t hm hr hp hlt
    simp [postSchedule, hm, hr, hp, hlt]

/-- Concrete witness for `schedule_validation_first_failure`: one request
per failing rule, each answered with that rule's message and no write. -/
theorem schedule_validation_first_failure_witness :
    postSchedule pdFix fdFix "id-x5" 5 ⟨"", "S", "B", "T6"⟩ fileFix
      = ⟨⟨400, "Missing required fields", none⟩, fileFix, 0⟩
    ∧ postSchedule pdFix fdFix "id-x5" 5 ⟨"nodot@nodot", "S", "B", "T6"⟩ fileFix
      = ⟨⟨400, "Invalid email format", none⟩, fileFix, 0⟩
    ∧ postSchedule pdFix fdFix "id-x5" 5 ⟨"a@b.com", "S", "B", "XX"⟩ fileFix
      = ⟨⟨400, "Invalid date format", none⟩, fileFix, 0⟩
    ∧ postSchedule pdFix fdFix "id-x5" 5 ⟨"a@b.com", "S", "B", "T0"⟩ fileFix
      = ⟨⟨400, "Scheduled time must be in the future", none⟩, fileFix, 0⟩ :=
  ⟨(schedule_validation_first_failure pdFix fdFix "id-x5" 5
      ⟨"", "S", "B", "T6"⟩ fileFix).1 (by decide),
   (schedule_validation_first_failure pdFix fdFix "id-x5" 5
      ⟨"nodot@nodot", "S", "B", "T6"⟩ fileFix).2.1 (by decide) (by decide),
   (schedule_validation_first_failure pdFix fdFix "id-x5" 5
      ⟨"a@b.com", "S", "B", "XX"⟩ fileFix).2.2.1 (by decide) (by decide)
     (by decide),
   (schedule_validation_first_failure pdFix fdFix "id-x5" 5
      ⟨"a@b.com", "S", "B", "T0"⟩ fileFix).2.2.2 0 (by decide) (by decide)
     (by decide) (by decide)⟩

/-- Claim C4: a valid schedule request (all fields present, email shape ok,
parseable scheduledTime strictly in the future, storage readable, fresh id
not yet in use) makes the handler build the job with that id, status
pending and the canonicalized timestamp string, append it to the loaded
snapshot, persist exactly one durable write, return 201 with the created
job, and the job is unique by id in, and a member of, the collection the
list-all endpoint subsequently returns. -/
theorem schedule_success_creates_pending
    (pd : String → Option Int) (fd : Int → String) (fid : String) (now : Int)
    (req : ScheduleRequest) (file : FileState) (emails : List EmailJob)
    (t : Int)
    (h1 : req.recipientEmail.isEmpty = false)
    (h2 : req.subject.isEmpty = false)
    (h3 : req.body.isEmpty = false)
    (h4 : req.scheduledTime.isEmpty = false)
    (h5 : emailRegexTest req.recipientEmail = true)
    (h6 : pd req.scheduledTime = some t)
    (h7 : now < t)
    (hl : loadEmails file = some emails)
    (hfresh : (emails.map EmailJob.id).contains fid = false) :
    postSchedule pd fd fid now req file
      = ⟨⟨201, "Email scheduled successfully",
            some ⟨fid, req.recipientEmail, req.subject, req.body, fd t,
              "pending"⟩⟩,
          FileState.content (emails ++
            [⟨fid, req.recipientEmail, req.subject, req.body, fd t,
              "pending"⟩]),
          1⟩
    ∧ ((emails ++
          [(⟨fid, req.recipientEmail, req.subject, req.body, fd t,
            "pending"⟩ : EmailJob)]).map EmailJob.id).count fid = 1
    ∧ getScheduled (FileState.content (emails ++
          [⟨fid, req.recipientEmail, req.subject, req.body, fd t,
            "pending"⟩]))
        = GetResponse.ok (emails ++
            [⟨fid, req.recipientEmail, req.subject, req.body, fd t,
              "pending"⟩])
    ∧ (⟨fid, req.recipientEmail, req.subject, req.body, fd t,
          "pending"⟩ : EmailJob)
        ∈ emails ++
            [⟨fid, req.recipientEmail, req.subject, req.body, fd t,
              "pending"⟩] := by
  have hnlt : ¬ t < now := not_lt.mpr (le_of_lt h7)
  have hsave := saveEmails_of_loadEmails file emails
    (emails ++ [⟨fid, req.recipientEmail, req.subject, req.body, fd t,
      "pending"⟩]) hl
  refine ⟨?_, ?_, rfl, List.mem_append_right _ (List.mem_singleton.mpr rfl)⟩
  · simp [postSchedule, h1, h2, h3, h4, h5, h6, hnlt, hl, hsave]
  · have h0 : fid ∉ emails.map EmailJob.id := by
      intro hmem
      have hc : (emails.map EmailJob.id).contains fid = true := by
        simpa using hmem
      rw [hfresh] at hc
      cases hc
    rw [List.map_append, List.count_append, List.count_eq_zero.mpr h0]
    simp

/-- Concrete witness for `schedule_success_creates_pending`: a valid
request at time 5 for time 6, over the three-job fixture snapshot. -/
theorem schedule_success_creates_pending_witness :
    postSchedule pdFix fdFix "id-x6" 5 ⟨"w@z.com", "S4", "B4", "T6"⟩ fileFix
      = ⟨⟨201, "Email scheduled successfully",
            some ⟨"id-x6", "w@z.com", "S4", "B4", fdFix 6, "pending"⟩⟩,
          FileState.content ([jobPastPending, jobFuturePending, jobSent] ++
            [⟨"id-x6", "w@z.com", "S4", "B4", fdFix 6, "pending"⟩]),
          1⟩
    ∧ ((([jobPastPending, jobFuturePending, jobSent] ++
          [(⟨"id-x6", "w@z.com", "S4", "B4", fdFix 6, "pending"⟩ : EmailJob)]).map
            EmailJob.id).count "id-x6") = 1
    ∧ getScheduled (FileState.content
          ([jobPastPending, jobFuturePending, jobSent] ++
            [⟨"id-x6", "w@z.com", "S4", "B4", fdFix 6, "pending"⟩]))
        = GetResponse.ok ([jobPastPending, jobFuturePending, jobSent] ++
            [⟨"id-x6", "w@z.com", "S4", "B4", fdFix 6, "pending"⟩])
    ∧ (⟨"id-x6", "w@z.com", "S4", "B4", fdFix 6, "pending"⟩ : EmailJob)
        ∈ [jobPastPending, jobFuturePending, jobSent] ++
            [⟨"id-x6", "w@z.com", "S4", "B4", fdFix 6, "pending"⟩] :=
  schedule_success_creates_pending pdFix fdFix "id-x6" 5
    ⟨"w@z.com", "S4", "B4", "T6"⟩ fileFix
    [jobPastPending, jobFuturePending, jobSent] 6
    (by decide) (by decide) (by decide) (by decide) (by decide) (by decide)
    (by decide) rfl (by decide)

/-- Claim C7: when the persisted state exists but is not parseable
(`corrupt`), `loadEmails` does not propagate the failure — the tick and
both request handlers observe an empty collection instead of crashing: the
load yields `[]`, the list endpoint answers 200 with `[]`, the tick
delivers nothing and leaves the file alone, and the schedule handler never
answers 500 on a corrupt file; the list endpoint answers 500 exactly when
it cannot obtain a load at all (storage layer inaccessible). -/
theorem corrupt_state_degrades_to_empty (pd : String → Option Int)
    (fd : Int → String) (fid : String) (now : Int) (req : ScheduleRequest) :
    loadEmails FileState.corrupt = some []
    ∧ getScheduled FileState.corrupt = GetResponse.ok []
    ∧ checkScheduledEmails pd now FileState.corrupt
        = ⟨FileState.corrupt, [], 0⟩
    ∧ ((postSchedule pd fd fid now req FileState.corrupt).response.status
        == 500) = false
    ∧ getScheduled FileState.inaccessible
        = GetResponse.serverError "Internal server error" := by
  refine ⟨rfl, rfl, rfl, ?_, rfl⟩
  unfold postSchedule
  repeat' split
  all_goals simp_all [loadEmails, saveEmails]

/-- Claim C10: when the persisted state exists but is unparseable, a
subsequent successful schedule request silently overwrites the whole file
with the one-element collection holding only the new job — the load step
mapped the parse failure to `[]`, so everything previously stored is
durably lost and the caller sees a plain 201, not an error. -/
theorem corrupt_state_overwritten_on_schedule
    (pd : String → Option Int) (fd : Int → String) (fid : String) (now : Int)
    (req : ScheduleRequest) (t : Int)
    (h1 : req.recipientEmail.isEmpty = false)
    (h2 : req.subject.isEmpty = false)
    (h3 : req.body.isEmpty = false)
    (h4 : req.scheduledTime.isEmpty = false)
    (h5 : emailRegexTest req.recipientEmail = true)
    (h6 : pd req.scheduledTime = some t)
    (h7 : ¬ t < now) :
    postSchedule pd fd fid now req FileState.corrupt
      = ⟨⟨201, "Email scheduled successfully",
            some ⟨fid, req.recipientEmail, req.subject, req.body, fd t,
              "pending"⟩⟩,
          FileState.content
            [⟨fid, req.recipientEmail, req.subject, req.body, fd t,
              "pending"⟩],
          1⟩ := by
  simp [postSchedule, h1, h2, h3, h4, h5, h6, h7, loadEmails, saveEmails]

/-- Concrete witness for `corrupt_state_overwritten_on_schedule`: a valid
request over a corrupt file yields 201 and a one-job file. -/
theorem corrupt_state_overwritten_on_schedule_witness :
    postSchedule pdFix fdFix "id-x7" 5 ⟨"p@q.rs", "S7", "B7", "T6"⟩
        FileState.corrupt
      = ⟨⟨201, "Email scheduled successfully",
            some ⟨"id-x7", "p@q.rs", "S7", "B7", fdFix 6, "pending"⟩⟩,
          FileState.content
            [⟨"id-x7", "p@q.rs", "S7", "B7", fdFix 6, "pending"⟩],
          1⟩ :=
  corrupt_state_overwritten_on_schedule pdFix fdFix "id-x7" 5
    ⟨"p@q.rs", "S7", "B7", "T6"⟩ 6 (by decide) (by decide) (by decide)
    (by decide) (by decide) (by decide) (by decide)

theorem decode_encode_job (e : EmailJob) : decodeJob (encodeJob e) = some e :=
  rfl

theorem decodeJobs_encode (l : List EmailJob) :
    decodeJobs (l.map encodeJob) = some l := by
  induction l with
  | nil => rfl
  | cons e rest ih => simp [decodeJobs, decode_encode_job, ih]

/-- Claim C8: the persistence round-trip is lossless — decoding the JSON
value tree `saveEmails` serializes returns the very same job sequence,
field for field and in order; a completed save is loaded back as the saved
sequence; and save-after-load on an existing file reproduces the file
unchanged (`saveAll(loadAll())` is a no-op on the persisted content). -/
theorem persistence_round_trip (l : List EmailJob) (file f2 : FileState)
    (hs : saveEmails l file = some f2) :
    decodeEmails (encodeEmails l) = some l
    ∧ loadEmails f2 = some l
    ∧ saveEmails ((loadEmails (FileState.content l)).getD [])
        (FileState.content l) = some (FileState.content l) := by
  refine ⟨?_, ?_, rfl⟩
  · simp [decodeEmails, encodeEmails, decodeJobs_encode]
  · have hf : f2 = FileState.content l := by
      cases file <;> simp [saveEmails] at hs <;> exact hs.symm
    rw [hf]
    rfl

/-- Concrete witness for `persistence_round_trip`: saving one job to an
absent file and reading it back. -/
theorem persistence_round_trip_witness :
    decodeEmails (encodeEmails [jobPastPending]) = some [jobPastPending]
    ∧ loadEmails (FileState.content [jobPastPending]) = some [jobPastPending]
    ∧ saveEmails
        ((loadEmails (FileState.content [jobPastPending])).getD [])
        (FileState.content [jobPastPending])
        = some (FileState.content [jobPastPending]) :=
  persistence_round_trip [jobPastPending] FileState.absent
    (FileState.content [jobPastPending]) rfl

theorem jobEvolves_refl (e : EmailJob) : jobEvolves e e :=
  ⟨rfl, rfl, rfl, rfl, rfl, Or.inl rfl⟩

theorem jobEvolves_trans (a b c : EmailJob)
    (h1 : jobEvolves a b) (h2 : jobEvolves b c) : jobEvolves a c := by
  obtain ⟨i1, r1, s1, b1, t1, st1⟩ := h1
  obtain ⟨i2, r2, s2, b2, t2, st2⟩ := h2
  refine ⟨i2.trans i1, r2.trans r1, s2.trans s1, b2.trans b1, t2.trans t1, ?_⟩
  rcases st1 with he1 | ⟨hp1, hs1⟩
  · rcases st2 with he2 | ⟨hp2, hs2⟩
    · exact Or.inl (he2.trans he1)
    · refine Or.inr ⟨?_, hs2⟩
      rw [← he1]
      exact hp2
  · rcases st2 with he2 | ⟨hp2, hs2⟩
    · exact Or.inr ⟨hp1, he2.trans hs1⟩
    · rw [hs1] at hp2
      exact absurd hp2 (by decide)

theorem forall₂_jobEvolves_refl (l : List EmailJob) :
    List.Forall₂ jobEvolves l l := by
  induction l with
  | nil => exact List.Forall₂.nil
  | cons e rest ih => exact List.Forall₂.cons (jobEvolves_refl e) ih

theorem forall₂_jobEvolves_trans (a b c : List EmailJob)
    (h1 : List.Forall₂ jobEvolves a b) (h2 : List.Forall₂ jobEvolves b c) :
    List.Forall₂ jobEvolves a c := by
  induction h1 generalizing c with
  | nil =>
    cases h2
    exact List.Forall₂.nil
  | cons hab h ih =>
    cases h2 with
    | cons hbc h2t =>
      exact List.Forall₂.cons (jobEvolves_trans _ _ _ hab hbc) (ih _ h2t)

theorem forall₂_jobEvolves_take (n : Nat) (a b : List EmailJob)
    (h : List.Forall₂ jobEvolves a b) :
    List.Forall₂ jobEvolves (a.take n) (b.take n) := by
  induction h generalizing n with
  | nil =>
    simp only [List.take_nil]
    exact List.Forall₂.nil
  | cons hab h ih =>
    cases n with
    | zero => exact List.Forall₂.nil
    | succ m =>
      simp only [List.take_succ_cons]
      exact List.Forall₂.cons hab (ih m)

theorem collEvolves_refl (l : List EmailJob) : collEvolves l l :=
  ⟨le_refl _, by rw [List.take_length]; exact forall₂_jobEvolves_refl l⟩

theorem collEvolves_trans (a b c : List EmailJob)
    (h1 : collEvolves a b) (h2 : collEvolves b c) : collEvolves a c := by
  obtain ⟨hl1, hf1⟩ := h1
  obtain ⟨hl2, hf2⟩ := h2
  refine ⟨hl1.trans hl2, ?_⟩
  have h3 := forall₂_jobEvolves_take a.length _ _ hf2
  rw [List.take_take, min_eq_left hl1] at h3
  exact forall₂_jobEvolves_trans _ _ _ hf1 h3

theorem stepJob_evolves (pd : String → Option Int) (now : Int)
    (e : EmailJob) : jobEvolves e (stepJob pd now e) := by
  unfold stepJob
  cases hd : isDue pd now e
  · simp only [Bool.false_eq_true, if_false]
    exact jobEvolves_refl e
  · simp only [if_true]
    have hp : e.status = "pending" := by
      unfold isDue at hd
      rw [Bool.and_eq_true] at hd
      simpa using hd.1
    exact ⟨rfl, rfl, rfl, rfl, rfl, Or.inr ⟨hp, rfl⟩⟩

theorem forall₂_map_stepJob (pd : String → Option Int) (now : Int)
    (l : List EmailJob) :
    List.Forall₂ jobEvolves l (l.map (stepJob pd now)) := by
  induction l with
  | nil => exact List.Forall₂.nil
  | cons e rest ih => exact List.Forall₂.cons (stepJob_evolves pd now e) ih

theorem collEvolves_map_stepJob (pd : String → Option Int) (now : Int)
    (l : List EmailJob) : collEvolves l (l.map (stepJob pd now)) := by
  refine ⟨le_of_eq (List.length_map l (stepJob pd now)).symm, ?_⟩
  rw [List.take_of_length_le (le_of_eq (List.length_map l (stepJob pd now)))]
  exact forall₂_map_stepJob pd now l

theorem collEvolves_append (l suffix : List EmailJob) :
    collEvolves l (l ++ suffix) := by
  refine ⟨by simp, ?_⟩
  rw [List.take_left]
  exact forall₂_jobEvolves_refl l

theorem observed_of_load (file : FileState) (emails : List EmailJob)
    (h : loadEmails file = some emails) : observed file = emails := by
  simp [observed, h]

theorem applyOp_evolves (pd : String → Option Int) (fd : Int → String)
    (file : FileState) (op : Op) :
    collEvolves (observed file) (observed (applyOp pd fd file op)) := by
  cases op with
  | listAll => exact collEvolves_refl _
  | tick now =>
    cases hfile : loadEmails file with
    | none =>
      simp only [applyOp, checkScheduledEmails, hfile]
      exact collEvolves_refl _
    | some emails =>
      have hsave := saveEmails_of_loadEmails file emails
        (emails.map (stepJob pd now)) hfile
      simp only [applyOp, checkScheduledEmails, hfile, tickScan_eq]
      cases hf : emails.filter (isDue pd now) with
      | nil =>
        simp only [hf, List.isEmpty_nil, if_true]
        exact collEvolves_refl _
      | cons d ds =>
        simp only [hf, List.isEmpty_cons, Bool.false_eq_true, if_false, hsave]
        rw [observed_of_load file emails hfile]
        exact collEvolves_map_stepJob pd now emails
  | schedule fid now req =>
    simp only [applyOp]
    cases hA : (req.recipientEmail.isEmpty || req.subject.isEmpty
        || req.body.isEmpty || req.scheduledTime.isEmpty) with
    | true =>
      simp only [postSchedule, hA, if_true]
      exact collEvolves_refl _
    | false =>
      cases hB : emailRegexTest req.recipientEmail with
      | false =>
        simp only [postSchedule, hA, hB]
        exact collEvolves_refl _
      | true =>
        cases hp : pd req.scheduledTime with
        | none =>
          simp only [postSchedule, hA, hB, hp]
          exact collEvolves_refl _
        | some t =>
          by_cases ht : t < now
          · simp only [postSchedule, hA, hB, hp, ht]
            simp only [if_true]
            exact collEvolves_refl _
          · cases hfile : loadEmails file with
            | none =>
              simp only [postSchedule, hA, hB, hp, ht, hfile]
              simp only [if_false]
              exact collEvolves_refl _
            | some emails =>
              have hsave := saveEmails_of_loadEmails file emails
                (emails ++ [⟨fid, req.recipientEmail, req.subject, req.body,
                  fd t, "pending"⟩]) hfile
              simp only [postSchedule, hA, hB, hp, ht, hfile, hsave,
                Bool.not_true, Bool.false_eq_true, if_false]
              rw [observed_of_load file emails hfile]
              exact collEvolves_append emails _

theorem statusOK_map_stepJob (pd : String → Option Int) (now : Int)
    (l : List EmailJob) (h : statusOK l) :
    statusOK (l.map (stepJob pd now)) := by
  intro x hx
  rw [List.mem_map] at hx
  obtain ⟨e, he, rfl⟩ := hx
  unfold stepJob
  cases hd : isDue pd now e
  · simp only [Bool.false_eq_true, if_false]
    exact h e he
  · simp only [if_true]
    exact Or.inr rfl

theorem statusOK_append_pending (l : List EmailJob) (e : EmailJob)
    (h : statusOK l) (hp : e.status = "pending") : statusOK (l ++ [e]) := by
  intro x hx
  rcases List.mem_append.mp hx with hx | hx
  · exact h x hx
  · rw [List.mem_singleton.mp hx]
    exact Or.inl hp

theorem statusOK_applyOp (pd : String → Option Int) (fd : Int → String)
    (file : FileState) (op : Op) (h : statusOK (observed file)) :
    statusOK (observed (applyOp pd fd file op)) := by
  cases op with
  | listAll => exact h
  | tick now =>
    cases hfile : loadEmails file with
    | none =>
      simp only [applyOp, checkScheduledEmails, hfile]
      exact h
    | some emails =>
      have hsave := saveEmails_of_loadEmails file emails
        (emails.map (stepJob pd now)) hfile
      rw [observed_of_load file emails hfile] at h
      simp only [applyOp, checkScheduledEmails, hfile, tickScan_eq]
      cases hf : emails.filter (isDue pd now) with
      | nil =>
        simp only [hf, List.isEmpty_nil, if_true]
        rw [observed_of_load file emails hfile]
        exact h
      | cons d ds =>
        simp only [hf, List.isEmpty_cons, Bool.false_eq_true, if_false, hsave]
        exact statusOK_map_stepJob pd now emails h
  | schedule fid now req =>
    simp only [applyOp]
    cases hA : (req.recipientEmail.isEmpty || req.subject.isEmpty
        || req.body.isEmpty || req.scheduledTime.isEmpty) with
    | true =>
      simp only [postSchedule, hA, if_true]
      exact h
    | false =>
      cases hB : emailRegexTest req.recipientEmail with
      | false =>
        simp only [postSchedule, hA, hB]
        exact h
      | true =>
        cases hp : pd req.scheduledTime with
        | none =>
          simp only [postSchedule, hA, hB, hp]
          exact h
        | some t =>
          by_cases ht : t < now
          · simp only [postSchedule, hA, hB, hp, ht]
            simp only [if_true]
            exact h
          · cases hfile : loadEmails file with
            | none =>
              simp only [postSchedule, hA, hB, hp, ht, hfile]
              simp only [if_false]
              exact h
            | some emails =>
              have hsave := saveEmails_of_loadEmails file emails
                (emails ++ [⟨fid, req.recipientEmail, req.subject, req.body,
                  fd t, "pending"⟩]) hfile
              rw [observed_of_load file emails hfile] at h
              simp only [postSchedule, hA, hB, hp, ht, hfile, hsave,
                Bool.not_true, Bool.false_eq_true, if_false]
              exact statusOK_append_pending emails _ h rfl

instance (l : List EmailJob) : Decidable (statusOK l) := by
  unfold statusOK
  infer_instance

/-- Claim C9: across any sequence of schedule requests, list calls and
Scheduler Loop ticks, the observed collection only evolves by appending new
jobs at the end and updating existing jobs in place with the single legal
status transition pending → sent — `collEvolves` says the old jobs survive
in order and position with id, recipientEmail, subject, body and
scheduledTime immutable and status either unchanged or moved from pending
to sent, never reverted and never removed — and if every stored job's
status is one of pending/sent beforehand, that remains true afterwards. -/
theorem ops_preserve_job_invariants (pd : String → Option Int)
    (fd : Int → String) (ops : List Op) (file : FileState)
    (h : statusOK (observed file)) :
    collEvolves (observed file) (observed (ops.foldl (applyOp pd fd) file))
    ∧ statusOK (observed (ops.foldl (applyOp pd fd) file)) := by
  revert h
  induction ops generalizing file with
  | nil =>
    intro h
    exact ⟨collEvolves_refl _, h⟩
  | cons op rest ih =>
    intro h
    rw [List.foldl_cons]
    refine ⟨collEvolves_trans _ _ _ (applyOp_evolves pd fd file op) ?_, ?_⟩
    · exact (ih (applyOp pd fd file op) (statusOK_applyOp pd fd file op h)).1
    · exact (ih (applyOp pd fd file op) (statusOK_applyOp pd fd file op h)).2

/-- Concrete witness for `ops_preserve_job_invariants`: a schedule request,
a tick and a list call applied in sequence to the three-job fixture. -/
theorem ops_preserve_job_invariants_witness :
    collEvolves (observed fileFix)
      (observed ([Op.schedule "id-x8" 5 ⟨"a@b.com", "S", "B", "T6"⟩,
          Op.tick 6, Op.listAll].foldl (applyOp pdFix fdFix) fileFix))
    ∧ statusOK
      (observed ([Op.schedule "id-x8" 5 ⟨"a@b.com", "S", "B", "T6"⟩,
          Op.tick 6, Op.listAll].foldl (applyOp pdFix fdFix) fileFix)) :=
  ops_preserve_job_invariants pdFix fdFix
    [Op.schedule "id-x8" 5 ⟨"a@b.com", "S", "B", "T6"⟩, Op.tick 6, Op.listAll]
    fileFix (by decide)
